import Mathlib

/-!
Verification of the `deepsize` adapter catalogue (`src/external_impls.rs`)
against its natural-language specification.

The adapters compute `deep_size_of_children` for foreign container types.
All Rust arithmetic is on `usize` (64-bit); in release builds `+` and `*`
wrap modulo `2^64`, which we model with explicit `% USIZE`.  An element's
recursive `deep_size_of_children(context)` result is abstracted as the
`ℕ` value it returned during the traversal (a `usize`, hence `< USIZE` for
any value arising from real execution; the definitions themselves keep the
field unconstrained, faithful to the arithmetic the source performs).
-/

/-- The modulus of Rust `usize` arithmetic on the 64-bit targets the crate
supports: `2 ^ 64`. -/
def USIZE : ℕ := 2 ^ 64

/-- Rust `usize` addition as compiled in release mode: wrapping `+`. -/
def uadd (a b : ℕ) : ℕ := (a + b) % USIZE

/-- Rust `usize` multiplication as compiled in release mode: wrapping `*`. -/
def umul (a b : ℕ) : ℕ := (a * b) % USIZE

/-- `smallvec::SmallVec<A>` as the adapter observes it: the sequence of its
elements' `deep_size_of_children` results (iteration order), whether the
storage has spilled to the heap, its capacity, and `size_of::<A::Item>()`. -/
structure SmallVec where
  childSizes : List ℕ
  spilled : Bool
  capacity : ℕ
  itemSize : ℕ

/-- `impl DeepSizeOf for smallvec::SmallVec<A>`, `fn deep_size_of_children`
(src/external_impls.rs lines 74-83): fold the elements' children sizes;
add `capacity * size_of::<Item>()` only when `spilled()`. -/
def SmallVec.deep_size_of_children (v : SmallVec) : ℕ :=
  let child_size := v.childSizes.foldl uadd 0
  if v.spilled then uadd child_size (umul v.capacity v.itemSize)
  else child_size

/-- `slab::Slab<T>` as the adapter observes it: the `deep_size_of_children`
results of the occupied slots' values (iteration order), the capacity, and
`size_of::<MockEntry<T>>()`, the locally declared shadow of slab's private
`Entry` enum (`_Vacant(usize) | _Occupied(T)`). -/
structure Slab where
  occupiedChildSizes : List ℕ
  capacity : ℕ
  mockEntrySize : ℕ

/-- `impl DeepSizeOf for slab::Slab<T>`, `fn deep_size_of_children`
(src/external_impls.rs lines 36-42): `capacity * size_of::<MockEntry<T>>()`
plus the fold of the occupied values' children sizes. -/
def Slab.deep_size_of_children (s : Slab) : ℕ :=
  let capacity_size := umul s.capacity s.mockEntrySize
  let owned_size := s.occupiedChildSizes.foldl uadd 0
  uadd capacity_size owned_size

/-- `slotmap::SlotMap<K, V>` as the adapter observes it: per occupied slot
the pair (key's children size, value's children size), the capacity, and
`size_of::<(u32, V)>()`, the shadow of slotmap's version+value slot. -/
structure SlotMap where
  entries : List (ℕ × ℕ)
  capacity : ℕ
  entrySize : ℕ

/-- `impl DeepSizeOf for slotmap::SlotMap<K, V>`, `fn deep_size_of_children`
(src/external_impls.rs lines 13-17): fold `key.deep_size_of_children +
val.deep_size_of_children` over the occupied slots, plus
`capacity * size_of::<(u32, V)>()`. -/
def SlotMap.deep_size_of_children (m : SlotMap) : ℕ :=
  uadd (m.entries.foldl (fun sum kv => uadd (uadd sum kv.1) kv.2) 0)
    (umul m.capacity m.entrySize)

/-- `hashbrown::HashMap<K, V, S>` as the adapter observes it: per entry the
pair (key's children size, value's children size), the capacity, and
`size_of::<(K, V)>()`. -/
structure HashMap where
  entries : List (ℕ × ℕ)
  capacity : ℕ
  entrySize : ℕ

/-- `impl DeepSizeOf for hashbrown::HashMap<K, V, S>`,
`fn deep_size_of_children` (src/external_impls.rs lines 99-108): fold of the
keys' and values' children sizes plus `capacity * size_of::<(K, V)>()`. -/
def HashMap.deep_size_of_children (m : HashMap) : ℕ :=
  uadd (m.entries.foldl (fun sum kv => uadd (uadd sum kv.1) kv.2) 0)
    (umul m.capacity m.entrySize)

/-- `hashbrown::HashSet<K, S>` as the adapter observes it: the keys' children
sizes, the capacity, and `size_of::<K>()`. -/
structure HashSet where
  keyChildSizes : List ℕ
  capacity : ℕ
  keySize : ℕ

/-- `impl DeepSizeOf for hashbrown::HashSet<K, S>`, `fn deep_size_of_children`
(src/external_impls.rs lines 116-121): fold of the keys' children sizes plus
`capacity * size_of::<K>()`. -/
def HashSet.deep_size_of_children (s : HashSet) : ℕ :=
  uadd (s.keyChildSizes.foldl uadd 0) (umul s.capacity s.keySize)

/-- `indexmap::IndexMap<K, V, S>` as the adapter observes it: per entry the
pair (key's children size, value's children size), the capacity, and
`size_of::<(usize, K, V)>()` (the bucket tuple).  `size_of::<usize>()` is 8
on the 64-bit targets modelled here. -/
structure IndexMap where
  entries : List (ℕ × ℕ)
  capacity : ℕ
  bucketSize : ℕ

/-- `impl DeepSizeOf for IndexMap<K, V, S>`, `fn deep_size_of_children`
(src/external_impls.rs lines 140-146): fold of the keys' and values'
children sizes plus `capacity * (size_of::<(usize, K, V)>() +
size_of::<usize>())`. -/
def IndexMap.deep_size_of_children (m : IndexMap) : ℕ :=
  let child_sizes := m.entries.foldl (fun sum kv => uadd (uadd sum kv.1) kv.2) 0
  let map_size := umul m.capacity (uadd m.bucketSize 8)
  uadd child_sizes map_size

/-- `indexmap::IndexSet<K, S>` as the adapter observes it: the keys' children
sizes, the capacity, and `size_of::<(usize, K, ())>()` (the bucket tuple). -/
structure IndexSet where
  keyChildSizes : List ℕ
  capacity : ℕ
  bucketSize : ℕ

/-- `impl DeepSizeOf for IndexSet<K, S>`, `fn deep_size_of_children`
(src/external_impls.rs lines 152-158): fold of the keys' children sizes plus
`capacity * (size_of::<(usize, K, ())>() + size_of::<usize>())`. -/
def IndexSet.deep_size_of_children (s : IndexSet) : ℕ :=
  let child_sizes := s.keyChildSizes.foldl uadd 0
  let map_size := umul s.capacity (uadd s.bucketSize 8)
  uadd child_sizes map_size

/-- `cpe::component::OwnedComponent` (variants `Any`, `NA`, `Value(String)`);
the `Value` payload is abstracted by the `deep_size_of_children` result of
the contained `String`. -/
inductive OwnedComponent where
  | Any : OwnedComponent
  | NA : OwnedComponent
  | Value : ℕ → OwnedComponent

/-- `impl DeepSizeOf for OwnedComponent`, `fn deep_size_of_children`
(src/external_impls.rs lines 206-212): the contained value's children size
for the `Value` variant, `0` otherwise. -/
def OwnedComponent.deep_size_of_children : OwnedComponent → ℕ
  | .Value v => v
  | _ => 0

/-- `cpe::cpe::Language` (variants `Any`, `Language(LanguageTag)`); the
`Language` payload is abstracted by the `deep_size_of_children` result of
`v.as_str()`. -/
inductive CpeLanguage where
  | Any : CpeLanguage
  | Language : ℕ → CpeLanguage

/-- `impl DeepSizeOf for Language`, `fn deep_size_of_children`
(src/external_impls.rs lines 216-222): the contained tag's children size for
the `Language` variant, `0` otherwise. -/
def CpeLanguage.deep_size_of_children : CpeLanguage → ℕ
  | .Language v => v
  | _ => 0

/-- `cpe::uri::OwnedUri` as the adapter observes it: nine components read
through the public accessors `vendor() .. other()` and `language()`, each
`.to_owned()` into its owned form. -/
structure OwnedUri where
  vendor : OwnedComponent
  product : OwnedComponent
  version : OwnedComponent
  update : OwnedComponent
  edition : OwnedComponent
  sw_edition : OwnedComponent
  target_sw : OwnedComponent
  other : OwnedComponent
  language : CpeLanguage

/-- `impl DeepSizeOf for OwnedUri`, `fn deep_size_of_children`
(src/external_impls.rs lines 226-237): the left-associated `usize` sum of
the nine owned components' children sizes. -/
def OwnedUri.deep_size_of_children (u : OwnedUri) : ℕ :=
  uadd (uadd (uadd (uadd (uadd (uadd (uadd (uadd
    u.vendor.deep_size_of_children
    u.product.deep_size_of_children)
    u.version.deep_size_of_children)
    u.update.deep_size_of_children)
    u.edition.deep_size_of_children)
    u.sw_edition.deep_size_of_children)
    u.target_sw.deep_size_of_children)
    u.other.deep_size_of_children)
    u.language.deep_size_of_children

/-- Modelled from the spec: the `known_deep_size!` macro is defined in the
crate core, which is not under `src/`; its invocations with literal `0`
(src/external_impls.rs lines 6, 61, 167-172, 180-183) register the chrono
calendar/time types, the tokio network handle types, `arrayvec::ArrayString`
and slotmap's key types.  Per §4.2 of the spec, such a registration "is
equivalent to hand-writing `children_size = 0` for every value of that type,
regardless of its bit pattern or variant".  A value of any registered family
is modelled by its family tag together with its raw bit pattern / variant
index. -/
structure ZeroRegistered where
  family : ℕ
  bits : ℕ

/-- Modelled from the spec: the expansion of `known_deep_size!(0; ...)` —
the constant-zero `children_size` implementation. -/
def ZeroRegistered.children_size (_ : ZeroRegistered) : ℕ := 0

theorem usize_pos : 0 < USIZE := by
  simp [USIZE]

theorem foldl_uadd_eq (l : List ℕ) :
    ∀ a : ℕ, l.foldl uadd (a % USIZE) = (a + l.sum) % USIZE := by
  induction l with
  | nil => intro a; simp
  | cons x xs ih =>
    intro a
    have h1 : uadd (a % USIZE) x = (a + x) % USIZE := by
      simp [uadd, Nat.mod_add_mod]
    calc (x :: xs).foldl uadd (a % USIZE)
        = xs.foldl uadd ((a + x) % USIZE) := by simp [List.foldl, h1]
      _ = (a + x + xs.sum) % USIZE := ih (a + x)
      _ = (a + (x :: xs).sum) % USIZE := by
          simp [List.sum_cons]; ring_nf

theorem foldl_uadd_zero (l : List ℕ) : l.foldl uadd 0 = l.sum % USIZE := by
  have h := foldl_uadd_eq l 0
  simpa using h

theorem foldl_uadd_pair_eq (l : List (ℕ × ℕ)) :
    ∀ a : ℕ,
      l.foldl (fun sum kv => uadd (uadd sum kv.1) kv.2) (a % USIZE) =
        (a + (l.map fun kv => kv.1 + kv.2).sum) % USIZE := by
  induction l with
  | nil => intro a; simp
  | cons x xs ih =>
    intro a
    have h1 : uadd (uadd (a % USIZE) x.1) x.2 = (a + (x.1 + x.2)) % USIZE := by
      simp [uadd, Nat.mod_add_mod, Nat.add_assoc]
    calc (x :: xs).foldl (fun sum kv => uadd (uadd sum kv.1) kv.2) (a % USIZE)
        = xs.foldl (fun sum kv => uadd (uadd sum kv.1) kv.2)
            ((a + (x.1 + x.2)) % USIZE) := by simp [List.foldl, h1]
      _ = (a + (x.1 + x.2) + (xs.map fun kv => kv.1 + kv.2).sum) % USIZE :=
          ih (a + (x.1 + x.2))
      _ = (a + ((x :: xs).map fun kv => kv.1 + kv.2).sum) % USIZE := by
          simp [List.map_cons, List.sum_cons]; ring_nf

theorem foldl_uadd_pair_zero (l : List (ℕ × ℕ)) :
    l.foldl (fun sum kv => uadd (uadd sum kv.1) kv.2) 0 =
      (l.map fun kv => kv.1 + kv.2).sum % USIZE := by
  have h := foldl_uadd_pair_eq l 0
  simpa using h

/-- Modelled from the spec: the measurement core (the `DeepSizeOf` trait's
driver, the `Context` and `deep_size_of` entry point) is defined in the
crate core, which is not under `src/`.  Per §3/§4.3 of the spec, a
measurement traverses the graph of heap allocations reachable from the
value; each allocation has an identity, a count of owned bytes, and
references to further allocations.  A heap is the finite set `dom` of
allocation identities together with, for each identity, its owned bytes
and the identities it references (possibly closing cycles). -/
structure Heap where
  dom : Finset ℕ
  bytes : ℕ → ℕ
  refs : ℕ → List ℕ

/-- Modelled from the spec: `Context::check_and_mark(identity) -> was_new`
(§4.3).  The context is the list of already-counted allocation identities;
the first visit records the identity and returns `true`, later visits
return `false` and leave the context unchanged. -/
def check_and_mark (ctx : List ℕ) (id : ℕ) : Bool × List ℕ :=
  if id ∈ ctx then (false, ctx) else (true, id :: ctx)

/-- Modelled from the spec: the recursive traversal of §2/§4.3, driven by
`check_and_mark`.  `visitAll h ctx work` processes the worklist of
allocation identities depth-first: an identity already in the context (or
outside the heap) contributes zero additional bytes; a new identity is
marked, its owned bytes are counted, and its references are pushed.
Returns the accumulated byte total and the final context. -/
def visitAll (h : Heap) (ctx : List ℕ) (work : List ℕ) : ℕ × List ℕ :=
  match work with
  | [] => (0, ctx)
  | id :: rest =>
    if hc : (check_and_mark ctx id).1 = false ∨ id ∉ h.dom then
      visitAll h ctx rest
    else
      let r := visitAll h (id :: ctx) (h.refs id ++ rest)
      (h.bytes id + r.1, r.2)
termination_by ((h.dom.filter (fun i => i ∉ ctx)).card, work.length)
decreasing_by
  · apply Prod.Lex.right
    simp
  · apply Prod.Lex.left
    have hid : id ∈ h.dom ∧ id ∉ ctx := by
      rcases not_or.mp hc with ⟨h1, h2⟩
      refine ⟨not_not.mp h2, ?_⟩
      intro hmem
      exact h1 (by simp [check_and_mark, hmem])
    apply Finset.card_lt_card
    constructor
    · intro i hi
      simp only [Finset.mem_filter, List.mem_cons] at hi ⊢
      exact ⟨hi.1, fun hm => hi.2 (Or.inr hm)⟩
    · intro hsub
      have := hsub (Finset.mem_filter.mpr ⟨hid.1, hid.2⟩)
      simp at this

/-- Modelled from the spec: `measure(value) -> bytes` (§4.1) — the
immediate-representation size of the value plus the traversal of the heap
allocations its references reach, started with a fresh (empty) context. -/
def measureValue (h : Heap) (stackSize : ℕ) (roots : List ℕ) : ℕ :=
  stackSize + (visitAll h [] roots).1

theorem check_and_mark_mem (ctx : List ℕ) (id : ℕ) (hid : id ∈ ctx) :
    check_and_mark ctx id = (false, ctx) := by
  simp [check_and_mark, hid]

theorem check_and_mark_not_mem (ctx : List ℕ) (id : ℕ) (hid : id ∉ ctx) :
    check_and_mark ctx id = (true, id :: ctx) := by
  simp [check_and_mark, hid]

theorem check_and_mark_false_iff (ctx : List ℕ) (id : ℕ) :
    (check_and_mark ctx id).1 = false ↔ id ∈ ctx := by
  by_cases hid : id ∈ ctx <;> simp [check_and_mark, hid]

theorem visitAll_nil (h : Heap) (ctx : List ℕ) : visitAll h ctx [] = (0, ctx) := by
  simp [visitAll]

theorem visitAll_cons_old (h : Heap) (ctx : List ℕ) (id : ℕ) (rest : List ℕ)
    (hc : (check_and_mark ctx id).1 = false ∨ id ∉ h.dom) :
    visitAll h ctx (id :: rest) = visitAll h ctx rest := by
  rw [visitAll]
  simp [hc]

theorem visitAll_cons_new (h : Heap) (ctx : List ℕ) (id : ℕ) (rest : List ℕ)
    (hc : ¬((check_and_mark ctx id).1 = false ∨ id ∉ h.dom)) :
    visitAll h ctx (id :: rest) =
      (h.bytes id + (visitAll h (id :: ctx) (h.refs id ++ rest)).1,
       (visitAll h (id :: ctx) (h.refs id ++ rest)).2) := by
  rw [visitAll]
  simp [hc]

theorem visitAll_spec (h : Heap) (ctx work : List ℕ) :
    ∃ new : List ℕ,
      (visitAll h ctx work).2 = new ++ ctx ∧
      new.Nodup ∧
      (∀ i ∈ new, i ∈ h.dom ∧ i ∉ ctx) ∧
      (visitAll h ctx work).1 = (new.map h.bytes).sum := by
  induction ctx, work using visitAll.induct h with
  | case1 ctx =>
    refine ⟨[], ?_, ?_, ?_, ?_⟩ <;> simp [visitAll_nil]
  | case2 ctx id rest hc ih =>
    rw [visitAll_cons_old h ctx id rest hc]
    exact ih
  | case3 ctx id rest hc ih =>
    rw [visitAll_cons_new h ctx id rest hc]
    obtain ⟨new, hctx, hnodup, hprop, htot⟩ := ih
    rcases not_or.mp hc with ⟨h1, h2⟩
    have hdom : id ∈ h.dom := not_not.mp h2
    have hnotmem : id ∉ ctx := by
      intro hm
      exact h1 ((check_and_mark_false_iff ctx id).mpr hm)
    have hid_new : id ∉ new := by
      intro hm
      have := (hprop id hm).2
      simp at this
    refine ⟨new ++ [id], ?_, ?_, ?_, ?_⟩
    · simpa [List.append_assoc] using hctx
    · simp [List.nodup_append, hnodup, hid_new]
    · intro i hi
      rcases List.mem_append.mp hi with hi | hi
      · have := hprop i hi
        refine ⟨this.1, fun hm => this.2 (by simp [hm])⟩
      · simp at hi
        subst hi
        exact ⟨hdom, hnotmem⟩
    · simp only [htot, List.map_append, List.sum_append, List.map_cons,
        List.map_nil, List.sum_cons, List.sum_nil]
      omega

theorem visitAll_ctx_mono (h : Heap) (ctx work : List ℕ) (i : ℕ) (hi : i ∈ ctx) :
    i ∈ (visitAll h ctx work).2 := by
  obtain ⟨new, h2, _, _, _⟩ := visitAll_spec h ctx work
  rw [h2]
  exact List.mem_append_right _ hi

theorem visitAll_append (h : Heap) (ctx w₁ : List ℕ) :
    ∀ w₂, visitAll h ctx (w₁ ++ w₂) =
      ((visitAll h ctx w₁).1 + (visitAll h (visitAll h ctx w₁).2 w₂).1,
       (visitAll h (visitAll h ctx w₁).2 w₂).2) := by
  induction ctx, w₁ using visitAll.induct h with
  | case1 ctx =>
    intro w₂
    simp [visitAll_nil]
  | case2 ctx id rest hc ih =>
    intro w₂
    rw [List.cons_append, visitAll_cons_old h ctx id (rest ++ w₂) hc,
      visitAll_cons_old h ctx id rest hc]
    exact ih w₂
  | case3 ctx id rest hc ih =>
    intro w₂
    rw [List.cons_append, visitAll_cons_new h ctx id (rest ++ w₂) hc,
      visitAll_cons_new h ctx id rest hc]
    have hassoc : h.refs id ++ (rest ++ w₂) = (h.refs id ++ rest) ++ w₂ :=
      (List.append_assoc _ _ _).symm
    rw [hassoc, ih w₂]
    simp [Nat.add_assoc]

theorem visitAll_skips (h : Heap) (w : List ℕ) :
    ∀ ctx, (∀ i ∈ w, i ∈ ctx ∨ i ∉ h.dom) → visitAll h ctx w = (0, ctx) := by
  induction w with
  | nil =>
    intro ctx _
    exact visitAll_nil h ctx
  | cons x xs ih =>
    intro ctx hw
    have hx := hw x (by simp)
    have hc : (check_and_mark ctx x).1 = false ∨ x ∉ h.dom := by
      rcases hx with hx | hx
      · exact Or.inl ((check_and_mark_false_iff ctx x).mpr hx)
      · exact Or.inr hx
    rw [visitAll_cons_old h ctx x xs hc]
    exact ih ctx (fun i hi => hw i (by simp [hi]))

/-- A concrete two-allocation heap whose allocations reference each other
(allocation 1 closes a cycle back to allocation 0). -/
def witnessHeap : Heap where
  dom := {0, 1}
  bytes := fun i => if i = 0 then 100 else 7
  refs := fun i => if i = 0 then [1] else [0]

/-- C1: for every value containing N references to one shared heap
allocation (including cycle-closing references), the measured total counts
that allocation's owned bytes exactly once, for every N ≥ 1: the total over
N root references to allocation `a` equals the total over one such
reference; the total is the sum of the bytes of a duplicate-free list of
visited allocations containing `a`; and whenever `check_and_mark` returns
`false` for `a`, the visit contributes zero bytes and leaves the context
unchanged. -/
theorem c1_shared_allocation_counted_once (h : Heap) (a n : ℕ) (hn : 1 ≤ n) :
    (∀ s, measureValue h s (List.replicate n a) = measureValue h s [a]) ∧
    (∃ visited : List ℕ, visited.Nodup ∧
        (visitAll h [] (List.replicate n a)).1 = (visited.map h.bytes).sum ∧
        (a ∈ h.dom → a ∈ visited)) ∧
    (∀ ctx, (check_and_mark ctx a).1 = false → visitAll h ctx [a] = (0, ctx)) := by
  have third : ∀ ctx, (check_and_mark ctx a).1 = false →
      visitAll h ctx [a] = (0, ctx) := by
    intro ctx hfalse
    have ha : a ∈ ctx := (check_and_mark_false_iff ctx a).mp hfalse
    apply visitAll_skips
    intro i hi
    simp at hi
    subst hi
    exact Or.inl ha
  obtain ⟨m, rfl⟩ : ∃ m, n = m + 1 := ⟨n - 1, by omega⟩
  have hrep : List.replicate (m + 1) a = [a] ++ List.replicate m a := by
    simp [List.replicate_succ]
  by_cases hdom : a ∈ h.dom
  · have hguard : ¬((check_and_mark [] a).1 = false ∨ a ∉ h.dom) := by
      simp [check_and_mark, hdom]
    have hR1 := visitAll_cons_new h [] a [] hguard
    have haR1 : a ∈ (visitAll h [] [a]).2 := by
      rw [hR1]
      exact visitAll_ctx_mono h [a] _ a (by simp)
    have happ := visitAll_append h [] [a] (List.replicate m a)
    have hskip : visitAll h (visitAll h [] [a]).2 (List.replicate m a) =
        (0, (visitAll h [] [a]).2) := by
      apply visitAll_skips
      intro i hi
      have hia : i = a := List.eq_of_mem_replicate hi
      subst hia
      exact Or.inl haR1
    have htotal : (visitAll h [] (List.replicate (m + 1) a)).1 =
        (visitAll h [] [a]).1 := by
      rw [hrep, happ, hskip]
      simp
    have hctx2 : (visitAll h [] (List.replicate (m + 1) a)).2 =
        (visitAll h [] [a]).2 := by
      rw [hrep, happ, hskip]
    refine ⟨?_, ?_, third⟩
    · intro s
      simp [measureValue, htotal]
    · obtain ⟨new, hctx, hnodup, _, htot⟩ :=
        visitAll_spec h [] (List.replicate (m + 1) a)
      refine ⟨new, hnodup, htot, fun _ => ?_⟩
      have hmem : a ∈ (visitAll h [] (List.replicate (m + 1) a)).2 := by
        rw [hctx2]
        exact haR1
      rw [hctx] at hmem
      simpa using hmem
  · have hall : visitAll h [] (List.replicate (m + 1) a) = (0, []) := by
      apply visitAll_skips
      intro i hi
      have hia : i = a := List.eq_of_mem_replicate hi
      subst hia
      exact Or.inr hdom
    have hone : visitAll h [] [a] = (0, []) := by
      apply visitAll_skips
      intro i hi
      simp at hi
      subst hi
      exact Or.inr hdom
    refine ⟨?_, ?_, third⟩
    · intro s
      simp [measureValue, hall, hone]
    · exact ⟨[], by simp, by simp [hall], fun hmem => absurd hmem hdom⟩

/-- C1 witness: the theorem applied to the concrete cyclic two-allocation
heap, with three root references to allocation 0. -/
theorem c1_witness_cyclic_heap :
    1 ≤ 3 ∧
    ((∀ s, measureValue witnessHeap s (List.replicate 3 0) =
        measureValue witnessHeap s [0]) ∧
      (∃ visited : List ℕ, visited.Nodup ∧
          (visitAll witnessHeap [] (List.replicate 3 0)).1 =
            (visited.map witnessHeap.bytes).sum ∧
          (0 ∈ witnessHeap.dom → 0 ∈ visited)) ∧
      (∀ ctx, (check_and_mark ctx 0).1 = false →
          visitAll witnessHeap ctx [0] = (0, ctx))) :=
  ⟨by decide, c1_shared_allocation_counted_once witnessHeap 0 3 (by decide)⟩

theorem smallVec_eq_mod (v : SmallVec) :
    v.deep_size_of_children =
      (if v.spilled then v.childSizes.sum + v.capacity * v.itemSize
       else v.childSizes.sum) % USIZE := by
  unfold SmallVec.deep_size_of_children
  by_cases hs : v.spilled <;>
    simp [hs, foldl_uadd_zero, uadd, umul, Nat.mod_add_mod, Nat.add_mod_mod]

theorem slab_eq_mod (s : Slab) :
    s.deep_size_of_children =
      (s.capacity * s.mockEntrySize + s.occupiedChildSizes.sum) % USIZE := by
  unfold Slab.deep_size_of_children
  simp [foldl_uadd_zero, uadd, umul, Nat.mod_add_mod, Nat.add_mod_mod]

theorem slotMap_eq_mod (m : SlotMap) :
    m.deep_size_of_children =
      ((m.entries.map fun kv => kv.1 + kv.2).sum + m.capacity * m.entrySize) %
        USIZE := by
  unfold SlotMap.deep_size_of_children
  rw [foldl_uadd_pair_zero]
  simp only [uadd, umul]
  rw [Nat.mod_add_mod, Nat.add_mod_mod]

theorem hashMap_eq_mod (m : HashMap) :
    m.deep_size_of_children =
      ((m.entries.map fun kv => kv.1 + kv.2).sum + m.capacity * m.entrySize) %
        USIZE := by
  unfold HashMap.deep_size_of_children
  rw [foldl_uadd_pair_zero]
  simp only [uadd, umul]
  rw [Nat.mod_add_mod, Nat.add_mod_mod]

theorem hashSet_eq_mod (s : HashSet) :
    s.deep_size_of_children =
      (s.keyChildSizes.sum + s.capacity * s.keySize) % USIZE := by
  unfold HashSet.deep_size_of_children
  simp [foldl_uadd_zero, uadd, umul, Nat.mod_add_mod, Nat.add_mod_mod]

theorem indexMap_eq_mod (m : IndexMap) :
    m.deep_size_of_children =
      ((m.entries.map fun kv => kv.1 + kv.2).sum +
        m.capacity * (m.bucketSize + 8)) % USIZE := by
  unfold IndexMap.deep_size_of_children
  rw [foldl_uadd_pair_zero]
  simp only [uadd, umul]
  rw [Nat.mod_add_mod, Nat.add_mod_mod]
  exact Nat.ModEq.add_left _ ((Nat.mod_modEq _ _).mul_left _)

theorem indexSet_eq_mod (s : IndexSet) :
    s.deep_size_of_children =
      (s.keyChildSizes.sum + s.capacity * (s.bucketSize + 8)) % USIZE := by
  unfold IndexSet.deep_size_of_children
  rw [foldl_uadd_zero]
  simp only [uadd, umul]
  rw [Nat.mod_add_mod, Nat.add_mod_mod]
  exact Nat.ModEq.add_left _ ((Nat.mod_modEq _ _).mul_left _)

theorem ownedUri_eq_mod (u : OwnedUri) :
    u.deep_size_of_children =
      (u.vendor.deep_size_of_children + u.product.deep_size_of_children +
        u.version.deep_size_of_children + u.update.deep_size_of_children +
        u.edition.deep_size_of_children + u.sw_edition.deep_size_of_children +
        u.target_sw.deep_size_of_children + u.other.deep_size_of_children +
        u.language.deep_size_of_children) % USIZE := by
  unfold OwnedUri.deep_size_of_children
  simp [uadd, Nat.mod_add_mod]

/-- C2: a `SmallVec` whose storage has not spilled contributes exactly the
sum of its elements' children sizes with no capacity term; a spilled one
additionally contributes `capacity * size_of::<Item>()`. -/
theorem c2_smallvec_inline_vs_spilled (v : SmallVec)
    (hbound : v.childSizes.sum + v.capacity * v.itemSize < USIZE) :
    (v.spilled = false → v.deep_size_of_children = v.childSizes.sum) ∧
    (v.spilled = true → v.deep_size_of_children =
      v.childSizes.sum + v.capacity * v.itemSize) := by
  constructor <;> intro hs <;> rw [smallVec_eq_mod] <;> simp only [hs] <;>
    simp <;> apply Nat.mod_eq_of_lt <;> omega

/-- C2 witness: three inline elements of four owned bytes each give twelve
bytes and no capacity term (spec scenario 2). -/
theorem c2_witness_inline_three_elements :
    (12 : ℕ) + 8 * 4 < USIZE ∧
    (((SmallVec.mk [4, 4, 4] false 8 4).spilled = false →
        (SmallVec.mk [4, 4, 4] false 8 4).deep_size_of_children =
          (SmallVec.mk [4, 4, 4] false 8 4).childSizes.sum) ∧
      ((SmallVec.mk [4, 4, 4] false 8 4).spilled = true →
        (SmallVec.mk [4, 4, 4] false 8 4).deep_size_of_children =
          (SmallVec.mk [4, 4, 4] false 8 4).childSizes.sum +
            (SmallVec.mk [4, 4, 4] false 8 4).capacity *
              (SmallVec.mk [4, 4, 4] false 8 4).itemSize)) :=
  ⟨by norm_num [USIZE],
   c2_smallvec_inline_vs_spilled (SmallVec.mk [4, 4, 4] false 8 4)
     (by norm_num [USIZE])⟩

/-- C3: a slot arena contributes `capacity * size(shadow entry)` plus the
children sizes of the occupied slots' values — for `slab::Slab` the shadow
is the local `MockEntry` mirror of slab's vacant/occupied `Entry`, for
`slotmap::SlotMap` it is `(u32, V)` and the keys' children sizes are also
summed. -/
theorem c3_slot_arena_capacity_plus_occupied (s : Slab) (m : SlotMap)
    (hs : s.capacity * s.mockEntrySize + s.occupiedChildSizes.sum < USIZE)
    (hm : (m.entries.map fun kv => kv.1 + kv.2).sum +
        m.capacity * m.entrySize < USIZE) :
    s.deep_size_of_children =
      s.capacity * s.mockEntrySize + s.occupiedChildSizes.sum ∧
    m.deep_size_of_children =
      (m.entries.map fun kv => kv.1 + kv.2).sum + m.capacity * m.entrySize := by
  rw [slab_eq_mod, slotMap_eq_mod]
  exact ⟨Nat.mod_eq_of_lt hs, Nat.mod_eq_of_lt hm⟩

/-- C3 witness: slab capacity 10, shadow entry size 2, four occupied slots
of owned size 6 give `10 * 2 + 4 * 6 = 44` bytes (spec scenario 5); a
slotmap with capacity 4, entry size 8 and one occupied slot adds its key's
and value's children sizes. -/
theorem c3_witness_slab_44 :
    (Slab.mk [6, 6, 6, 6] 10 2).capacity *
        (Slab.mk [6, 6, 6, 6] 10 2).mockEntrySize +
        (Slab.mk [6, 6, 6, 6] 10 2).occupiedChildSizes.sum < USIZE ∧
    ((SlotMap.mk [(0, 6)] 4 8).entries.map fun kv => kv.1 + kv.2).sum +
      (SlotMap.mk [(0, 6)] 4 8).capacity * (SlotMap.mk [(0, 6)] 4 8).entrySize <
        USIZE ∧
    ((Slab.mk [6, 6, 6, 6] 10 2).deep_size_of_children =
        (Slab.mk [6, 6, 6, 6] 10 2).capacity *
            (Slab.mk [6, 6, 6, 6] 10 2).mockEntrySize +
          (Slab.mk [6, 6, 6, 6] 10 2).occupiedChildSizes.sum ∧
      (SlotMap.mk [(0, 6)] 4 8).deep_size_of_children =
        ((SlotMap.mk [(0, 6)] 4 8).entries.map fun kv => kv.1 + kv.2).sum +
          (SlotMap.mk [(0, 6)] 4 8).capacity *
            (SlotMap.mk [(0, 6)] 4 8).entrySize) :=
  ⟨by norm_num [USIZE], by norm_num [USIZE],
   c3_slot_arena_capacity_plus_occupied (Slab.mk [6, 6, 6, 6] 10 2)
     (SlotMap.mk [(0, 6)] 4 8) (by norm_num [USIZE]) (by norm_num [USIZE])⟩

/-- C4: an open-addressing hash map or set contributes the children sizes
of all keys and values plus `capacity * size(entry tuple)` — `(K, V)` for
`hashbrown::HashMap`, `K` for `hashbrown::HashSet` — with no term depending
on the current length. -/
theorem c4_hashbrown_children_plus_capacity (m : HashMap) (s : HashSet)
    (hm : (m.entries.map fun kv => kv.1 + kv.2).sum +
        m.capacity * m.entrySize < USIZE)
    (hs : s.keyChildSizes.sum + s.capacity * s.keySize < USIZE) :
    m.deep_size_of_children =
      (m.entries.map fun kv => kv.1 + kv.2).sum + m.capacity * m.entrySize ∧
    s.deep_size_of_children =
      s.keyChildSizes.sum + s.capacity * s.keySize := by
  rw [hashMap_eq_mod, hashSet_eq_mod]
  exact ⟨Nat.mod_eq_of_lt hm, Nat.mod_eq_of_lt hs⟩

/-- C4 witness: a set with 0 elements, capacity 16 and element stack size 8
contributes `16 * 8 = 128` bytes with 0 from children (spec scenario 1). -/
theorem c4_witness_empty_set_128 :
    ((HashMap.mk [(3, 5)] 4 16).entries.map fun kv => kv.1 + kv.2).sum +
        (HashMap.mk [(3, 5)] 4 16).capacity *
          (HashMap.mk [(3, 5)] 4 16).entrySize < USIZE ∧
    (HashSet.mk [] 16 8).keyChildSizes.sum +
        (HashSet.mk [] 16 8).capacity * (HashSet.mk [] 16 8).keySize < USIZE ∧
    ((HashMap.mk [(3, 5)] 4 16).deep_size_of_children =
        ((HashMap.mk [(3, 5)] 4 16).entries.map fun kv => kv.1 + kv.2).sum +
          (HashMap.mk [(3, 5)] 4 16).capacity *
            (HashMap.mk [(3, 5)] 4 16).entrySize ∧
      (HashSet.mk [] 16 8).deep_size_of_children =
        (HashSet.mk [] 16 8).keyChildSizes.sum +
          (HashSet.mk [] 16 8).capacity * (HashSet.mk [] 16 8).keySize) :=
  ⟨by norm_num [USIZE], by norm_num [USIZE],
   c4_hashbrown_children_plus_capacity (HashMap.mk [(3, 5)] 4 16)
     (HashSet.mk [] 16 8) (by norm_num [USIZE]) (by norm_num [USIZE])⟩

/-- C5: an insertion-ordered map or set contributes the children sizes of
all keys and values plus `capacity * (size(bucket tuple) +
size_of::<usize>())`, the index-slot size being 8 bytes on the modelled
64-bit targets. -/
theorem c5_indexmap_children_plus_dual_buffer (m : IndexMap) (s : IndexSet)
    (hm : (m.entries.map fun kv => kv.1 + kv.2).sum +
        m.capacity * (m.bucketSize + 8) < USIZE)
    (hs : s.keyChildSizes.sum + s.capacity * (s.bucketSize + 8) < USIZE) :
    m.deep_size_of_children =
      (m.entries.map fun kv => kv.1 + kv.2).sum +
        m.capacity * (m.bucketSize + 8) ∧
    s.deep_size_of_children =
      s.keyChildSizes.sum + s.capacity * (s.bucketSize + 8) := by
  rw [indexMap_eq_mod, indexSet_eq_mod]
  exact ⟨Nat.mod_eq_of_lt hm, Nat.mod_eq_of_lt hs⟩

/-- C5 witness: a map with one entry (key children 3, value children 5),
capacity 4, bucket tuple size 24 gives `8 + 4 * 32 = 136`; a set with two
keys, capacity 8, bucket tuple size 16 gives `2 + 8 * 24 = 194`. -/
theorem c5_witness_concrete_buffers :
    ((IndexMap.mk [(3, 5)] 4 24).entries.map fun kv => kv.1 + kv.2).sum +
        (IndexMap.mk [(3, 5)] 4 24).capacity *
          ((IndexMap.mk [(3, 5)] 4 24).bucketSize + 8) < USIZE ∧
    (IndexSet.mk [1, 1] 8 16).keyChildSizes.sum +
        (IndexSet.mk [1, 1] 8 16).capacity *
          ((IndexSet.mk [1, 1] 8 16).bucketSize + 8) < USIZE ∧
    ((IndexMap.mk [(3, 5)] 4 24).deep_size_of_children =
        ((IndexMap.mk [(3, 5)] 4 24).entries.map fun kv => kv.1 + kv.2).sum +
          (IndexMap.mk [(3, 5)] 4 24).capacity *
            ((IndexMap.mk [(3, 5)] 4 24).bucketSize + 8) ∧
      (IndexSet.mk [1, 1] 8 16).deep_size_of_children =
        (IndexSet.mk [1, 1] 8 16).keyChildSizes.sum +
          (IndexSet.mk [1, 1] 8 16).capacity *
            ((IndexSet.mk [1, 1] 8 16).bucketSize + 8)) :=
  ⟨by norm_num [USIZE], by norm_num [USIZE],
   c5_indexmap_children_plus_dual_buffer (IndexMap.mk [(3, 5)] 4 24)
     (IndexSet.mk [1, 1] 8 16) (by norm_num [USIZE]) (by norm_num [USIZE])⟩

/-- C6: every value of a zero-size-registered type (the chrono
calendar/time types, the tokio network handle types,
`arrayvec::ArrayString`, slotmap's key types) reports `children_size = 0`,
regardless of its family, bit pattern or variant. -/
theorem c6_zero_registered_children_size :
    ∀ v : ZeroRegistered, v.children_size = 0 :=
  fun _ => rfl

/-- C7 counterexample: the adapters accumulate with plain wrapping `usize`
arithmetic, not saturating arithmetic.  An empty slab with capacity `2^63`
and shadow entry size 4 has mathematical total `2^65`, beyond the maximum
representable byte count `2^64 - 1`; the code returns the wrapped value 0,
not the maximum. -/
theorem c7_counterexample_no_saturation :
    (Slab.mk [] (2 ^ 63) 4).deep_size_of_children = 0 ∧
    USIZE - 1 < 2 ^ 63 * 4 + ([] : List ℕ).sum ∧
    (Slab.mk [] (2 ^ 63) 4).deep_size_of_children ≠ USIZE - 1 := by
  have h0 : (Slab.mk [] (2 ^ 63) 4).deep_size_of_children = 0 := by
    rw [slab_eq_mod]
    norm_num [USIZE]
  refine ⟨h0, by norm_num [USIZE], ?_⟩
  rw [h0]
  norm_num [USIZE]

/-- C7 (amended): every accumulation performed by the cited adapters is a
non-negative byte count computed with wrapping modulo-`2^64` `usize`
arithmetic: the result equals the mathematical sum of the children sizes
and the capacity term reduced modulo `2^64` (hence wraps, rather than
saturates, when the mathematical sum exceeds the maximum representable
byte count), and is always below `2^64`. -/
theorem c7_amended_wrapping_accumulation (s : Slab) (m : SlotMap) :
    s.deep_size_of_children =
      (s.capacity * s.mockEntrySize + s.occupiedChildSizes.sum) % USIZE ∧
    m.deep_size_of_children =
      ((m.entries.map fun kv => kv.1 + kv.2).sum + m.capacity * m.entrySize) %
        USIZE ∧
    s.deep_size_of_children < USIZE ∧
    m.deep_size_of_children < USIZE := by
  refine ⟨slab_eq_mod s, slotMap_eq_mod m, ?_, ?_⟩
  · rw [slab_eq_mod]
    exact Nat.mod_lt _ usize_pos
  · rw [slotMap_eq_mod]
    exact Nat.mod_lt _ usize_pos

/-- C9: the optional/variant structured identifiers report the contained
value's children size when the variant holds one (`OwnedComponent::Value`,
`Language::Language`) and exactly 0 for every empty/wildcard variant. -/
theorem c9_variant_identifiers :
    (∀ v, (OwnedComponent.Value v).deep_size_of_children = v) ∧
    OwnedComponent.Any.deep_size_of_children = 0 ∧
    OwnedComponent.NA.deep_size_of_children = 0 ∧
    (∀ v, (CpeLanguage.Language v).deep_size_of_children = v) ∧
    CpeLanguage.Any.deep_size_of_children = 0 :=
  ⟨fun _ => rfl, rfl, rfl, fun _ => rfl, rfl⟩

/-- C10: an `OwnedUri` contributes exactly the `usize` sum of the children
sizes of the owned copies of its nine components — vendor, product,
version, update, edition, sw_edition, target_sw, other and language — with
no additional term of its own. -/
theorem c10_owneduri_nine_components (u : OwnedUri)
    (hb : u.vendor.deep_size_of_children + u.product.deep_size_of_children +
        u.version.deep_size_of_children + u.update.deep_size_of_children +
        u.edition.deep_size_of_children + u.sw_edition.deep_size_of_children +
        u.target_sw.deep_size_of_children + u.other.deep_size_of_children +
        u.language.deep_size_of_children < USIZE) :
    u.deep_size_of_children =
      u.vendor.deep_size_of_children + u.product.deep_size_of_children +
        u.version.deep_size_of_children + u.update.deep_size_of_children +
        u.edition.deep_size_of_children + u.sw_edition.deep_size_of_children +
        u.target_sw.deep_size_of_children + u.other.deep_size_of_children +
        u.language.deep_size_of_children := by
  rw [ownedUri_eq_mod]
  exact Nat.mod_eq_of_lt hb

/-- A concrete URI for the C10 witness: two components hold values (3 and 4
owned bytes), the rest are wildcard/empty, the language tag owns 2 bytes. -/
def witnessUri : OwnedUri :=
  OwnedUri.mk (OwnedComponent.Value 3) (OwnedComponent.Value 4)
    OwnedComponent.Any OwnedComponent.Any OwnedComponent.NA
    OwnedComponent.Any OwnedComponent.Any OwnedComponent.Any
    (CpeLanguage.Language 2)

/-- C10 witness: the theorem applied to `witnessUri`, whose component
children sizes sum to 9. -/
theorem c10_witness_concrete_uri :
    witnessUri.vendor.deep_size_of_children +
        witnessUri.product.deep_size_of_children +
        witnessUri.version.deep_size_of_children +
        witnessUri.update.deep_size_of_children +
        witnessUri.edition.deep_size_of_children +
        witnessUri.sw_edition.deep_size_of_children +
        witnessUri.target_sw.deep_size_of_children +
        witnessUri.other.deep_size_of_children +
        witnessUri.language.deep_size_of_children < USIZE ∧
    witnessUri.deep_size_of_children =
      witnessUri.vendor.deep_size_of_children +
        witnessUri.product.deep_size_of_children +
        witnessUri.version.deep_size_of_children +
        witnessUri.update.deep_size_of_children +
        witnessUri.edition.deep_size_of_children +
        witnessUri.sw_edition.deep_size_of_children +
        witnessUri.target_sw.deep_size_of_children +
        witnessUri.other.deep_size_of_children +
        witnessUri.language.deep_size_of_children :=
  ⟨by norm_num [witnessUri, OwnedComponent.deep_size_of_children,
      CpeLanguage.deep_size_of_children, USIZE],
   c10_owneduri_nine_components witnessUri
     (by norm_num [witnessUri, OwnedComponent.deep_size_of_children,
        CpeLanguage.deep_size_of_children, USIZE])⟩

/-- C8: every adapter's `deep_size_of_children` is a total function — for
every well-typed input it runs to completion and returns a byte count
representable as a `usize` (below `2^64`); no failure value or aborted
measurement exists in any code path.  For the identifier variants the
contained payload's children size is itself a `usize` result, reflected by
the two bound hypotheses. -/
theorem c8_adapters_never_fail (v : SmallVec) (sl : Slab) (sm : SlotMap)
    (hm : HashMap) (hs : HashSet) (im : IndexMap) (ixs : IndexSet)
    (u : OwnedUri) (c : OwnedComponent) (lg : CpeLanguage)
    (hcv : ∀ x, c = OwnedComponent.Value x → x < USIZE)
    (hlv : ∀ x, lg = CpeLanguage.Language x → x < USIZE) :
    v.deep_size_of_children < USIZE ∧
    sl.deep_size_of_children < USIZE ∧
    sm.deep_size_of_children < USIZE ∧
    hm.deep_size_of_children < USIZE ∧
    hs.deep_size_of_children < USIZE ∧
    im.deep_size_of_children < USIZE ∧
    ixs.deep_size_of_children < USIZE ∧
    u.deep_size_of_children < USIZE ∧
    c.deep_size_of_children < USIZE ∧
    lg.deep_size_of_children < USIZE := by
  refine ⟨?_, ?_, ?_, ?_, ?_, ?_, ?_, ?_, ?_, ?_⟩
  · rw [smallVec_eq_mod]
    exact Nat.mod_lt _ usize_pos
  · rw [slab_eq_mod]
    exact Nat.mod_lt _ usize_pos
  · rw [slotMap_eq_mod]
    exact Nat.mod_lt _ usize_pos
  · rw [hashMap_eq_mod]
    exact Nat.mod_lt _ usize_pos
  · rw [hashSet_eq_mod]
    exact Nat.mod_lt _ usize_pos
  · rw [indexMap_eq_mod]
    exact Nat.mod_lt _ usize_pos
  · rw [indexSet_eq_mod]
    exact Nat.mod_lt _ usize_pos
  · rw [ownedUri_eq_mod]
    exact Nat.mod_lt _ usize_pos
  · cases c with
    | Any => exact usize_pos
    | NA => exact usize_pos
    | Value x => exact hcv x rfl
  · cases lg with
    | Any => exact usize_pos
    | Language x => exact hlv x rfl

/-- C8 witness: the theorem applied to one concrete value of every adapter
input type. -/
theorem c8_witness_concrete_inputs :
    (∀ x, OwnedComponent.Value 5 = OwnedComponent.Value x → x < USIZE) ∧
    (∀ x, CpeLanguage.Language 2 = CpeLanguage.Language x → x < USIZE) ∧
    ((SmallVec.mk [1, 2] true 4 8).deep_size_of_children < USIZE ∧
      (Slab.mk [6] 3 2).deep_size_of_children < USIZE ∧
      (SlotMap.mk [(0, 6)] 4 8).deep_size_of_children < USIZE ∧
      (HashMap.mk [(3, 5)] 4 16).deep_size_of_children < USIZE ∧
      (HashSet.mk [7] 16 8).deep_size_of_children < USIZE ∧
      (IndexMap.mk [(3, 5)] 4 24).deep_size_of_children < USIZE ∧
      (IndexSet.mk [1, 1] 8 16).deep_size_of_children < USIZE ∧
      witnessUri.deep_size_of_children < USIZE ∧
      (OwnedComponent.Value 5).deep_size_of_children < USIZE ∧
      (CpeLanguage.Language 2).deep_size_of_children < USIZE) :=
  ⟨fun x hx => by cases hx; norm_num [USIZE],
   fun x hx => by cases hx; norm_num [USIZE],
   c8_adapters_never_fail (SmallVec.mk [1, 2] true 4 8) (Slab.mk [6] 3 2)
     (SlotMap.mk [(0, 6)] 4 8) (HashMap.mk [(3, 5)] 4 16) (HashSet.mk [7] 16 8)
     (IndexMap.mk [(3, 5)] 4 24) (IndexSet.mk [1, 1] 8 16) witnessUri
     (OwnedComponent.Value 5) (CpeLanguage.Language 2)
     (fun x hx => by cases hx; norm_num [USIZE])
     (fun x hx => by cases hx; norm_num [USIZE])⟩
